import Mathlib

/-!
# rux: response rendering and request logging

A shallow embedding of `render/http_renderer.go` and
`handlers/request_logger.go`.

* A Go `string` is a Lean `String`, a Go `[]byte` is a `List UInt8`, and the
  conversion `[]byte(s)` is the UTF-8 encoding `bytesOf s`.
* A Go `error` is an `Option Error`; `nil` is `none`.
* A Go `int` is an `Int` in the range of a 64-bit signed integer. The only
  arithmetic in the sources is the byte counter `w.length += n`, whose result
  is wrapped into that range by `wrapInt`.
* An `http.ResponseWriter` is an explicit state machine `ResponseWriter σ`:
  every method takes the writer's state and returns the new one.
-/

namespace Rux

/-! ## Go values -/

/-- The message of a non-nil Go `error`. -/
abbrev Error := String

/-- A Go byte slice. -/
abbrev Bytes := List UInt8

/-- The value a 64-bit Go `int` holds after an operation whose exact result is
`x`: `x` wrapped into the range from `-2^63` to `2^63 - 1`. -/
def wrapInt (x : Int) : Int :=
  (x + 9223372036854775808) % 18446744073709551616 - 9223372036854775808

/-- The conversion `[]byte(s)`. -/
def bytesOf (s : String) : Bytes := s.toUTF8.data.toList

/-! ## `http.ResponseWriter` -/

/-- The three operations of `http.ResponseWriter` that the sources use, over a
writer state `σ`: `w.Header().Set(key, value)`, `w.WriteHeader(status)` and
`w.Write(b)`, the last one returning `(n, err)`. -/
structure ResponseWriter (σ : Type) where
  headerSet : σ → String → String → σ
  WriteHeader : σ → Int → σ
  Write : σ → Bytes → σ × Int × Option Error

/-- One call received by a writer; a `Write` is logged with what it returned. -/
inductive Event where
  | headerSet (key value : String)
  | WriteHeader (status : Int)
  | Write (b : Bytes) (n : Int) (err : Option Error)
  deriving DecidableEq, Repr

/-- The writer `W` with a log of every call made on it, oldest first. -/
def recording {σ : Type} (W : ResponseWriter σ) : ResponseWriter (σ × List Event) where
  headerSet := fun s k v => (W.headerSet s.1 k v, s.2 ++ [Event.headerSet k v])
  WriteHeader := fun s c => (W.WriteHeader s.1 c, s.2 ++ [Event.WriteHeader c])
  Write := fun s b =>
    let r := W.Write s.1 b
    ((r.1, s.2 ++ [Event.Write b r.2.1 r.2.2]), r.2.1, r.2.2)

/-- A writer that accepts everything: `Write` reports the whole slice written. -/
def discard : ResponseWriter Unit where
  headerSet := fun _ _ _ => ()
  WriteHeader := fun _ _ => ()
  Write := fun _ b => ((), (b.length : Int), none)

/-- A writer whose every `Write` reports `n` bytes written and no error. -/
def reports (n : Int) : ResponseWriter Unit where
  headerSet := fun _ _ _ => ()
  WriteHeader := fun _ _ => ()
  Write := fun _ _ => ((), n, none)

/-- A writer over a connection that carries `s` more bytes: a `Write` that fits
is accepted whole, one that does not fit writes nothing and fails. -/
def limited : ResponseWriter Nat where
  headerSet := fun s _ _ => s
  WriteHeader := fun s _ => s
  Write := fun s b =>
    if b.length ≤ s then (s - b.length, (b.length : Int), none)
    else (s, 0, some "write: broken pipe")

/-! ## render/http_renderer.go -/

def ContentType : String := "Content-Type"
def ContentText : String := "text/plain"
def ContentJSON : String := "application/json"
def ContentJSONP : String := "application/javascript"
def ContentXML : String := "application/xml"
def ContentYAML : String := "application/x-yaml"
def ContentHTML : String := "text/html"
def ContentBinary : String := "application/octet-stream"
def ContentDisposition : String := "Content-Disposition"
def dispositionInline : String := "inline"
def dispositionAttachment : String := "attachment"

/-- The fields of `HttpOptions` declared in this file (the embedded base
`Options` is declared elsewhere and is not read by the methods below). -/
structure HttpOptions where
  ContentBinary : String
  ContentHTML : String
  ContentXML : String
  ContentText : String
  ContentJSON : String
  ContentJSONP : String
  DefaultCharset : String
  AppendCharset : Bool

/-- The renderer. The embedded base `Renderer` is declared outside these
sources; the two methods that delegate to it take the delegate as an argument. -/
structure HTTPRenderer where
  opts : HttpOptions
  initialized : Bool

/-- The options `NewHTTPRenderer` installs before the user's configuration
function runs; `defaultCharset` is a constant of the package declared elsewhere. -/
def defaultOptions (defaultCharset : String) : HttpOptions where
  ContentXML := ContentXML
  ContentText := ContentText
  ContentHTML := ContentHTML
  ContentJSON := ContentJSON
  ContentJSONP := ContentJSONP
  ContentBinary := ContentBinary
  DefaultCharset := defaultCharset
  AppendCharset := true

/-- The function `NewHTTPRenderer(config...)`: at most the first configuration
function is applied; `AppendCharset()` has an empty body. -/
def NewHTTPRenderer (defaultCharset : String) (config : List (HttpOptions → HttpOptions)) :
    HTTPRenderer :=
  let opts := defaultOptions defaultCharset
  let opts := match config with
    | [] => opts
    | f :: _ => f opts
  { opts := opts, initialized := false }

section Render

variable {σ : Type}

/-- The method `Text`. -/
def HTTPRenderer.Text (_r : HTTPRenderer) (W : ResponseWriter σ) (w : σ) (status : Int)
    (v : String) : σ × Option Error :=
  let w := W.WriteHeader w status
  let w := W.headerSet w ContentType "text/plain; charset=UTF-8"
  let res := W.Write w (bytesOf v)
  (res.1, res.2.2)

/-- The method `JSONP`; `jsonMarshal` is the package's serializer, declared
elsewhere. The results of the first and of the third `Write` are dropped. -/
def HTTPRenderer.JSONP {α : Type} (r : HTTPRenderer)
    (jsonMarshal : α → Bool → Bool → Except Error Bytes)
    (W : ResponseWriter σ) (w : σ) (status : Int) (callback : String) (v : α) :
    σ × Option Error :=
  let w := W.headerSet w ContentType r.opts.ContentJSONP
  let w := W.WriteHeader w status
  match jsonMarshal v false false with
  | .error err => (w, some err)
  | .ok bs =>
    if callback = "" then
      (w, some "renderer: callback can not bet empty")
    else
      let r1 := W.Write w (bytesOf (callback ++ "("))
      let r2 := W.Write r1.1 bs
      let r3 := W.Write r2.1 (bytesOf ");")
      (r3.1, r2.2.2)

/-- The method `Binary`; `readAll` is what `ioutil.ReadAll(in)` returns. -/
def HTTPRenderer.Binary (r : HTTPRenderer) (W : ResponseWriter σ) (w : σ) (status : Int)
    (readAll : Bytes × Option Error) (outName : String) (inline : Bool) :
    σ × Option Error :=
  match readAll.2 with
  | some err => (w, some err)
  | none =>
    let bs := readAll.1
    let dispositionType := if inline then dispositionInline else dispositionAttachment
    let w := W.headerSet w ContentType r.opts.ContentBinary
    let w := W.headerSet w ContentDisposition (dispositionType ++ "; filename=" ++ outName)
    let w := W.WriteHeader w status
    let res := W.Write w bs
    (res.1, res.2.2)

/-- The method `String`, an alias of `Text`. (Declared after the other methods
only because its name hides the type `String` inside this namespace.) -/
def HTTPRenderer.String (r : HTTPRenderer) (W : ResponseWriter σ) (w : σ) (status : Int)
    (v : String) : σ × Option Error :=
  r.Text W w status v

end Render

/-- A renderer as `NewHTTPRenderer()` builds it. -/
def stdRenderer : HTTPRenderer := NewHTTPRenderer "UTF-8" []

/-! ## handlers/request_logger.go -/

/-- The struct `statusWriter`: the embedded `http.ResponseWriter` (here its
state), the recorded status and the accumulated length. -/
structure statusWriter (σ : Type) where
  ResponseWriter : σ
  status : Int
  length : Int

section StatusWriter

variable {σ : Type}

/-- The literal `&statusWriter{ResponseWriter: resp}`: the other fields are zero. -/
def statusWriter.fresh (resp : σ) : statusWriter σ :=
  { ResponseWriter := resp, status := 0, length := 0 }

/-- The method `Status`. -/
def statusWriter.Status (w : statusWriter σ) : Int :=
  w.status

/-- The method `WriteHeader`. -/
def statusWriter.WriteHeader (W : Rux.ResponseWriter σ) (w : statusWriter σ) (status : Int) :
    statusWriter σ :=
  let w := { w with status := status }
  { w with ResponseWriter := W.WriteHeader w.ResponseWriter status }

/-- The method `Write`. -/
def statusWriter.Write (W : Rux.ResponseWriter σ) (w : statusWriter σ) (b : Bytes) :
    statusWriter σ × Int × Option Error :=
  let w := if w.status = 0 then { w with status := 200 } else w
  let res := W.Write w.ResponseWriter b
  let w := { w with ResponseWriter := res.1 }
  let w := { w with length := wrapInt (w.length + res.2.1) }
  (w, res.2.1, res.2.2)

/-- The method `Header` is promoted from the embedded writer: a header set on
the wrapper is a header set on the embedded writer. -/
def statusWriter.headerSet (W : Rux.ResponseWriter σ) (w : statusWriter σ) (key value : String) :
    statusWriter σ :=
  { w with ResponseWriter := W.headerSet w.ResponseWriter key value }

/-- The wrapper seen as an `http.ResponseWriter`, as `c.Resp = sw` uses it. -/
def statusWriter.asWriter (W : Rux.ResponseWriter σ) : Rux.ResponseWriter (statusWriter σ) where
  headerSet := statusWriter.headerSet W
  WriteHeader := statusWriter.WriteHeader W
  Write := statusWriter.Write W

end StatusWriter

/-- The colours of `gookit/color` that the logger selects. -/
inductive Color where
  | FgGreen | FgCyan | FgYellow | FgRed | FgBlue | FgMagenta | FgWhite | FgDefault
  deriving DecidableEq, Repr

/-- The function `colorForStatus`. -/
def colorForStatus (code : Int) : Color :=
  if code ≥ 200 ∧ code < 300 then Color.FgGreen
  else if code ≥ 300 ∧ code < 400 then Color.FgCyan
  else if code ≥ 400 ∧ code < 500 then Color.FgYellow
  else Color.FgRed

/-- The function `colorForMethod`. -/
def colorForMethod (method : String) : Color :=
  if method = "GET" then Color.FgBlue
  else if method = "POST" then Color.FgCyan
  else if method = "PUT" then Color.FgYellow
  else if method = "DELETE" then Color.FgRed
  else if method = "PATCH" then Color.FgGreen
  else if method = "HEAD" then Color.FgMagenta
  else if method = "OPTIONS" then Color.FgWhite
  else Color.FgDefault

/-- The map `skip` built by `RequestLogger`. -/
def skip : List (String × Int) := [("/health", 1), ("/status", 1)]

/-- What `RequestLogger` reads from the `sux.Context` of a request: the writer
`c.Resp`, `c.URL().Path`, `c.Req.Method`, `c.Req.RequestURI`, `c.ClientIP()`. -/
structure Context (ρ : Type) where
  Resp : ρ
  Path : String
  Method : String
  RequestURI : String
  ClientIP : String

/-- The assignment `c.Resp = resp`; the writer may change its type. -/
def Context.setResp {ρ ρ' : Type} (c : Context ρ) (resp : ρ') : Context ρ' :=
  { Resp := resp, Path := c.Path, Method := c.Method, RequestURI := c.RequestURI,
    ClientIP := c.ClientIP }

/-- The handler returned by `RequestLogger()`, run on one request. It returns
the context after the request and the lines printed on standard output.
`next` is `c.Next()`: the rest of the chain, which works on the context whose
writer is the wrapper `sw` and returns normally; the `Resp` of the context it
returns is the state in which it left `sw`. `render` is `Color.Render`
of `gookit/color`; `startStamp` is `start.Format("2006/01/02 15:04:05")` and
`elapsed` is `calcElapsedTime(start)`, both read from the clock. -/
def RequestLogger {σ : Type} (render : Color → String → String) (startStamp elapsed : String)
    (next : Context (statusWriter σ) → Context (statusWriter σ)) (c : Context σ) :
    Context (statusWriter σ) × List String :=
  let sw : statusWriter σ := statusWriter.fresh c.Resp
  let c := c.setResp sw
  let c := next c
  let path := c.Path
  match skip.lookup path with
  | some _ => (c, [])
  | none =>
    let mColor := colorForMethod c.Method
    let codeColor := colorForStatus c.Resp.Status
    (c, [startStamp ++ " " ++ c.ClientIP ++ " " ++ render mColor c.Method ++ " [" ++
      render codeColor (toString c.Resp.Status) ++ "] " ++ c.RequestURI ++ " " ++
      elapsed ++ "ms\n"])

/-! ## Call sequences and logs -/

/-- A call made on a writer by its user. -/
inductive WriterCall where
  | WriteHeader (status : Int)
  | Write (b : Bytes)
  deriving DecidableEq, Repr

/-- Makes the calls in order on the writer `W`, from the state `w`; returns the
final state and what each `Write` returned, in order. -/
def applyCalls {τ : Type} (W : ResponseWriter τ) :
    τ → List WriterCall → τ × List (Int × Option Error)
  | w, [] => (w, [])
  | w, WriterCall.WriteHeader c :: rest => applyCalls W (W.WriteHeader w c) rest
  | w, WriterCall.Write b :: rest =>
    let res := W.Write w b
    let t := applyCalls W res.1 rest
    (t.1, (res.2.1, res.2.2) :: t.2)

/-- The log a writer has after receiving exactly `calls`, in that order, when
its `Write`s returned `results`, in that order. -/
def eventsOf : List WriterCall → List (Int × Option Error) → List Event
  | [], _ => []
  | WriterCall.WriteHeader c :: rest, results => Event.WriteHeader c :: eventsOf rest results
  | WriterCall.Write b :: rest, res :: results =>
    Event.Write b res.1 res.2 :: eventsOf rest results
  | WriterCall.Write b :: rest, [] => Event.Write b 0 none :: eventsOf rest []

/-- The place of a call in a response: headers, then status, then body. -/
def Event.rank : Event → Nat
  | Event.headerSet _ _ => 0
  | Event.WriteHeader _ => 1
  | Event.Write _ _ _ => 2

/-- Every header set is before every status write and every body write, and
every status write is before every body write. -/
def inOrder (log : List Event) : Prop :=
  log.Pairwise (fun a b => a.rank ≤ b.rank)

instance (log : List Event) : Decidable (inOrder log) := by
  unfold inOrder; infer_instance

/-- The body bytes handed to `Write`, concatenated in order. -/
def bodyOf : List Event → Bytes
  | [] => []
  | Event.Write b _ _ :: rest => b ++ bodyOf rest
  | _ :: rest => bodyOf rest

/-- The exact sum of the written-lengths the logged `Write`s returned. -/
def writtenOf : List Event → Int
  | [] => 0
  | Event.Write _ n _ :: rest => n + writtenOf rest
  | _ :: rest => writtenOf rest

/-- Some `Write` in the log returned a non-nil error. -/
def someWriteFailed (log : List Event) : Prop :=
  ∃ b n err, Event.Write b n (some err) ∈ log

/-- A serializer that returns the bytes it is given. -/
def marshalOk (v : Bytes) (_indent _unescape : Bool) : Except Error Bytes := Except.ok v

/-- A serializer that always fails. -/
def marshalFail (_v : Bytes) (_indent _unescape : Bool) : Except Error Bytes :=
  Except.error "json: unsupported type"

/-- The JSON text of the object with the single member `"a": 1`, compact. -/
def sampleJSON : Bytes := bytesOf "\x7b\"a\":1\x7d"

/-! ## Lemmas on logs -/

section Logs

variable {σ : Type}

theorem bytesOf_append (a b : String) : bytesOf (a ++ b) = bytesOf a ++ bytesOf b := by
  simp [bytesOf, String.toUTF8, List.flatMap_append]

theorem bodyOf_append (l₁ l₂ : List Event) : bodyOf (l₁ ++ l₂) = bodyOf l₁ ++ bodyOf l₂ := by
  induction l₁ with
  | nil => rfl
  | cons e t ih => cases e <;> simp [bodyOf, ih]

/-- The log `Text` leaves on a recording writer. -/
theorem Text_log (r : HTTPRenderer) (W : ResponseWriter σ) (w : σ) (log : List Event)
    (status : Int) (v : String) :
    (r.Text (recording W) (w, log) status v).1.2 =
      log ++ [Event.WriteHeader status,
        Event.headerSet ContentType "text/plain; charset=UTF-8",
        Event.Write (bytesOf v)
          (W.Write (W.headerSet (W.WriteHeader w status) ContentType
            "text/plain; charset=UTF-8") (bytesOf v)).2.1
          (W.Write (W.headerSet (W.WriteHeader w status) ContentType
            "text/plain; charset=UTF-8") (bytesOf v)).2.2] := by
  simp [HTTPRenderer.Text, recording]

/-- The log `Binary` leaves on a recording writer when the source was read. -/
theorem Binary_log (r : HTTPRenderer) (W : ResponseWriter σ) (w : σ) (log : List Event)
    (status : Int) (bs : Bytes) (outName : String) (inline : Bool) :
    ∃ n err, (r.Binary (recording W) (w, log) status (bs, none) outName inline).1.2 =
      log ++ [Event.headerSet ContentType r.opts.ContentBinary,
        Event.headerSet ContentDisposition
          ((if inline then dispositionInline else dispositionAttachment) ++
            "; filename=" ++ outName),
        Event.WriteHeader status,
        Event.Write bs n err] := by
  simp only [HTTPRenderer.Binary, recording, List.append_assoc, List.singleton_append,
    List.nil_append]
  exact ⟨_, _, rfl⟩

/-- The log `JSONP` leaves on a recording writer when it reaches the body. -/
theorem JSONP_log {α : Type} (r : HTTPRenderer)
    (jsonMarshal : α → Bool → Bool → Except Error Bytes) (W : ResponseWriter σ) (w : σ)
    (log : List Event) (status : Int) (callback : String) (v : α) (bs : Bytes)
    (hm : jsonMarshal v false false = Except.ok bs) (hc : callback ≠ "") :
    ∃ n₁ e₁ n₂ e₂ n₃ e₃,
      (r.JSONP jsonMarshal (recording W) (w, log) status callback v).1.2 =
        log ++ [Event.headerSet ContentType r.opts.ContentJSONP,
          Event.WriteHeader status,
          Event.Write (bytesOf (callback ++ "(")) n₁ e₁,
          Event.Write bs n₂ e₂,
          Event.Write (bytesOf ");") n₃ e₃] ∧
      (r.JSONP jsonMarshal (recording W) (w, log) status callback v).2 = e₂ := by
  simp only [HTTPRenderer.JSONP, hm, hc, if_false, recording, List.append_assoc,
    List.singleton_append, List.nil_append]
  exact ⟨_, _, _, _, _, _, rfl, rfl⟩

/-- The log `JSONP` leaves when it stops before the body: the serializer
failed or the callback name is empty. -/
theorem JSONP_log_stopped {α : Type} (r : HTTPRenderer)
    (jsonMarshal : α → Bool → Bool → Except Error Bytes) (W : ResponseWriter σ) (w : σ)
    (log : List Event) (status : Int) (callback : String) (v : α)
    (h : (∃ e, jsonMarshal v false false = Except.error e) ∨ callback = "") :
    (r.JSONP jsonMarshal (recording W) (w, log) status callback v).1.2 =
        log ++ [Event.headerSet ContentType r.opts.ContentJSONP, Event.WriteHeader status] ∧
      (r.JSONP jsonMarshal (recording W) (w, log) status callback v).2 ≠ none := by
  rcases h with ⟨e, he⟩ | hc
  · simp [HTTPRenderer.JSONP, he, recording]
  · cases hm : jsonMarshal v false false <;> simp [HTTPRenderer.JSONP, hm, hc, recording]

/-- The error `Text` returns is the one its `Write` returned, and so is the
error of `Binary` when the source was read. -/
theorem Text_Binary_return_write_error (r : HTTPRenderer) (W : ResponseWriter σ) (w : σ)
    (status : Int) (v : String) (bs : Bytes) (outName : String) (inline : Bool) :
    (r.Text W w status v).2 =
      (W.Write (W.headerSet (W.WriteHeader w status) ContentType
        "text/plain; charset=UTF-8") (bytesOf v)).2.2 ∧
    (r.Binary W w status (bs, none) outName inline).2 =
      (W.Write (W.WriteHeader (W.headerSet (W.headerSet w ContentType r.opts.ContentBinary)
        ContentDisposition ((if inline then dispositionInline else dispositionAttachment) ++
          "; filename=" ++ outName)) status) bs).2.2 :=
  ⟨rfl, rfl⟩

/-- The sibling methods keep the order: `JSONP` sets its header, then writes
the status, then the body, whatever the writer answers. -/
theorem JSONP_inOrder {α : Type} (r : HTTPRenderer)
    (jsonMarshal : α → Bool → Bool → Except Error Bytes) (W : ResponseWriter σ) (w : σ)
    (status : Int) (callback : String) (v : α) :
    inOrder (r.JSONP jsonMarshal (recording W) (w, []) status callback v).1.2 := by
  cases hm : jsonMarshal v false false with
  | error e =>
    rw [(JSONP_log_stopped r jsonMarshal W w [] status callback v (Or.inl ⟨e, hm⟩)).1]
    simp [inOrder, Event.rank]
  | ok bs =>
    by_cases hc : callback = ""
    · rw [(JSONP_log_stopped r jsonMarshal W w [] status callback v (Or.inr hc)).1]
      simp [inOrder, Event.rank]
    · obtain ⟨n₁, e₁, n₂, e₂, n₃, e₃, hlog, _⟩ :=
        JSONP_log r jsonMarshal W w [] status callback v bs hm hc
      rw [hlog]
      simp [inOrder, Event.rank]

/-- The sibling methods keep the order: `Binary` sets both headers, then writes
the status, then the body. -/
theorem Binary_inOrder (r : HTTPRenderer) (W : ResponseWriter σ) (w : σ) (status : Int)
    (readAll : Bytes × Option Error) (outName : String) (inline : Bool) :
    inOrder (r.Binary (recording W) (w, []) status readAll outName inline).1.2 := by
  obtain ⟨bs, e⟩ := readAll
  cases e with
  | some e => simp [HTTPRenderer.Binary, inOrder]
  | none =>
    obtain ⟨n, err, hlog⟩ := Binary_log r W w [] status bs outName inline
    rw [hlog]
    simp [inOrder, Event.rank]

end Logs

/-! ## The renderer: claims -/

section RenderClaims

variable {σ : Type}

/-- C1, on `Text`: for every writer, status and payload, `Text` calls
`WriteHeader` first and sets `Content-Type` only afterwards, so its calls are
not in the order headers, status, body. -/
theorem Text_sets_header_after_status (r : HTTPRenderer) (W : ResponseWriter σ) (w : σ)
    (status : Int) (v : String) :
    (∃ n err, (r.Text (recording W) (w, []) status v).1.2 =
      [Event.WriteHeader status, Event.headerSet "Content-Type" "text/plain; charset=UTF-8",
        Event.Write (bytesOf v) n err]) ∧
    ¬ inOrder (r.Text (recording W) (w, []) status v).1.2 := by
  rw [Text_log]
  refine ⟨⟨_, _, rfl⟩, ?_⟩
  simp [inOrder, Event.rank]

/-- C3, on `JSONP`: on a connection that carries ten more bytes, the writes
of `cb(` and of the seven bytes of JSON succeed, the write of `);` fails, and
`JSONP` returns no error. -/
theorem JSONP_swallows_write_error :
    (stdRenderer.JSONP marshalOk (recording limited) (10, []) 200 "cb" sampleJSON).2 = none ∧
    Event.Write (bytesOf ");") 0 (some "write: broken pipe") ∈
      (stdRenderer.JSONP marshalOk (recording limited) (10, []) 200 "cb" sampleJSON).1.2 ∧
    someWriteFailed
      (stdRenderer.JSONP marshalOk (recording limited) (10, []) 200 "cb" sampleJSON).1.2 := by
  have h : Event.Write (bytesOf ");") 0 (some "write: broken pipe") ∈
      (stdRenderer.JSONP marshalOk (recording limited) (10, []) 200 "cb" sampleJSON).1.2 := by
    decide
  exact ⟨by decide, h, _, _, _, h⟩

/-- C4: when reading the source fails with `e`, `Binary` returns `e`, leaves
the state of the writer as it was, and makes no call on the writer. -/
theorem Binary_read_failure_atomic (r : HTTPRenderer) (W : ResponseWriter σ) (w : σ)
    (log : List Event) (status : Int) (bs : Bytes) (e : Error) (outName : String)
    (inline : Bool) :
    r.Binary W w status (bs, some e) outName inline = (w, some e) ∧
    r.Binary (recording W) (w, log) status (bs, some e) outName inline = ((w, log), some e) := by
  simp [HTTPRenderer.Binary]

/-- C5: when the serializer returns the bytes `j` and every `Write` of the
writer succeeds, `JSONP` with an empty callback name returns an error and
writes no body byte; with any other callback name it returns no error and the
body bytes written are the callback name, `(`, `j` and `);` in this order. -/
theorem JSONP_body {α : Type} (r : HTTPRenderer)
    (jsonMarshal : α → Bool → Bool → Except Error Bytes) (W : ResponseWriter σ) (w : σ)
    (status : Int) (callback : String) (v : α) (j : Bytes)
    (hm : jsonMarshal v false false = Except.ok j)
    (hW : ∀ s b, (W.Write s b).2.2 = none) :
    (r.JSONP jsonMarshal (recording W) (w, []) status callback v).2 =
      (if callback = "" then some "renderer: callback can not bet empty" else none) ∧
    bodyOf (r.JSONP jsonMarshal (recording W) (w, []) status callback v).1.2 =
      (if callback = "" then [] else bytesOf callback ++ bytesOf "(" ++ j ++ bytesOf ");") := by
  by_cases hc : callback = ""
  · simp [HTTPRenderer.JSONP, hm, hc, recording, bodyOf]
  · obtain ⟨n₁, e₁, n₂, e₂, n₃, e₃, hlog, herr⟩ :=
      JSONP_log r jsonMarshal W w [] status callback v j hm hc
    have h2 : (r.JSONP jsonMarshal (recording W) (w, []) status callback v).2 = none := by
      simp [HTTPRenderer.JSONP, hm, hc, recording, hW]
    rw [hlog, h2]
    simp [hc, bodyOf, bytesOf_append]

/-- C5, witness: callback `cb` and the JSON text of `a: 1` give the body
`cb(` ++ JSON ++ `);`. -/
theorem JSONP_body_witness :
    marshalOk sampleJSON false false = Except.ok sampleJSON ∧
    (∀ s b, (discard.Write s b).2.2 = none) ∧
    (stdRenderer.JSONP marshalOk (recording discard) ((), []) 200 "cb" sampleJSON).2 = none ∧
    bodyOf (stdRenderer.JSONP marshalOk (recording discard) ((), []) 200 "cb" sampleJSON).1.2 =
      bytesOf "cb(\x7b\"a\":1\x7d);" :=
  ⟨rfl, fun _ _ => rfl,
    (JSONP_body stdRenderer marshalOk discard () 200 "cb" sampleJSON sampleJSON rfl
      (fun _ _ => rfl)).1.trans (by decide),
    (JSONP_body stdRenderer marshalOk discard () 200 "cb" sampleJSON sampleJSON rfl
      (fun _ _ => rfl)).2.trans (by decide)⟩

end RenderClaims

/-! ## The status writer: lemmas -/

section StatusWriterLemmas

variable {σ τ : Type}

theorem applyCalls_append (W : ResponseWriter τ) (w : τ) (xs ys : List WriterCall) :
    applyCalls W w (xs ++ ys) =
      ((applyCalls W (applyCalls W w xs).1 ys).1,
        (applyCalls W w xs).2 ++ (applyCalls W (applyCalls W w xs).1 ys).2) := by
  induction xs generalizing w with
  | nil => simp [applyCalls]
  | cons x t ih => cases x <;> simp [applyCalls, ih]

theorem Write_status_ne_zero (W : ResponseWriter σ) (w : statusWriter σ) (b : Bytes) :
    (statusWriter.Write W w b).1.status ≠ 0 := by
  by_cases h : w.status = 0 <;> simp [statusWriter.Write, h]

theorem Write_status_of_unset (W : ResponseWriter σ) (w : statusWriter σ) (b : Bytes)
    (h : w.status = 0 ∨ w.status = 200) : (statusWriter.Write W w b).1.status = 200 := by
  rcases h with h | h <;> simp [statusWriter.Write, h]

theorem Write_status_of_set (W : ResponseWriter σ) (w : statusWriter σ) (b : Bytes)
    (h : w.status ≠ 0) : (statusWriter.Write W w b).1.status = w.status := by
  simp [statusWriter.Write, h]

theorem wrapInt_add_left (a b : Int) : wrapInt (wrapInt a + b) = wrapInt (a + b) := by
  unfold wrapInt
  omega

theorem wrapInt_idem (a : Int) : wrapInt (wrapInt a) = wrapInt a := by
  unfold wrapInt
  omega

theorem wrapInt_of_range (x : Int) (h0 : 0 ≤ x) (h1 : x < 9223372036854775808) :
    wrapInt x = x := by
  unfold wrapInt
  omega

theorem Write_length (W : ResponseWriter σ) (w : statusWriter σ) (b : Bytes) :
    (statusWriter.Write W w b).1.length =
      wrapInt (w.length + (statusWriter.Write W w b).2.1) := by
  by_cases h : w.status = 0 <;> simp [statusWriter.Write, h]

theorem Write_forwarded (W : ResponseWriter σ) (w : statusWriter σ) (b : Bytes) :
    (statusWriter.Write W w b).1.ResponseWriter = (W.Write w.ResponseWriter b).1 ∧
    (statusWriter.Write W w b).2 = (W.Write w.ResponseWriter b).2 := by
  by_cases h : w.status = 0 <;> simp [statusWriter.Write, h]

/-- After writes only, a status that was unset or 200 is 200. -/
theorem status_after_writes (W : ResponseWriter σ) (bs : List Bytes) (w : statusWriter σ)
    (b : Bytes) (h : w.status = 0 ∨ w.status = 200) :
    (applyCalls (statusWriter.asWriter W) w
      (bs.map WriterCall.Write ++ [WriterCall.Write b])).1.status = 200 := by
  induction bs generalizing w with
  | nil => simpa [applyCalls, statusWriter.asWriter] using Write_status_of_unset W w b h
  | cons x t ih =>
    simp only [List.map_cons, List.cons_append, applyCalls]
    exact ih _ (Or.inr (Write_status_of_unset W w x h))

/-- After writes only, a status that was set stays. -/
theorem status_kept_by_writes (W : ResponseWriter σ) (bs : List Bytes) (w : statusWriter σ)
    (h : w.status ≠ 0) :
    (applyCalls (statusWriter.asWriter W) w (bs.map WriterCall.Write)).1.status = w.status := by
  induction bs generalizing w with
  | nil => simp [applyCalls]
  | cons x t ih =>
    simp only [List.map_cons, applyCalls]
    have hx : (statusWriter.Write W w x).1.status = w.status := Write_status_of_set W w x h
    have := ih (statusWriter.Write W w x).1 (by rw [hx]; exact h)
    simpa [statusWriter.asWriter, hx] using this

/-- The length after a run is the wrapped sum of the length before and of the
returned written-lengths. -/
theorem length_after_calls (W : ResponseWriter σ) (calls : List WriterCall)
    (w : statusWriter σ) (hw : wrapInt w.length = w.length) :
    (applyCalls (statusWriter.asWriter W) w calls).1.length =
      wrapInt (w.length +
        ((applyCalls (statusWriter.asWriter W) w calls).2.map Prod.fst).sum) := by
  induction calls generalizing w with
  | nil => simp [applyCalls, hw]
  | cons x t ih =>
    cases x with
    | WriteHeader c =>
      simp only [applyCalls]
      rw [ih _ (by simpa [statusWriter.asWriter, statusWriter.WriteHeader] using hw)]
      simp [statusWriter.asWriter, statusWriter.WriteHeader]
    | Write b =>
      simp only [applyCalls, List.map_cons, List.sum_cons]
      have hl : ((statusWriter.asWriter W).Write w b).1.length =
          wrapInt (w.length + ((statusWriter.asWriter W).Write w b).2.1) := Write_length W w b
      rw [ih _ (by rw [hl]; exact wrapInt_idem _), hl, wrapInt_add_left, add_assoc]

/-- The wrapper drives the embedded writer exactly as the calls would directly. -/
theorem wrapper_forwards (W : ResponseWriter σ) (calls : List WriterCall)
    (w : statusWriter σ) :
    (applyCalls (statusWriter.asWriter W) w calls).1.ResponseWriter =
      (applyCalls W w.ResponseWriter calls).1 ∧
    (applyCalls (statusWriter.asWriter W) w calls).2 = (applyCalls W w.ResponseWriter calls).2 := by
  induction calls generalizing w with
  | nil => simp [applyCalls]
  | cons x t ih =>
    cases x with
    | WriteHeader c =>
      simp only [applyCalls]
      have := ih (statusWriter.WriteHeader W w c)
      simpa [statusWriter.asWriter, statusWriter.WriteHeader] using this
    | Write b =>
      simp only [applyCalls]
      have h := ih (statusWriter.Write W w b).1
      have hf := Write_forwarded W w b
      simp only [statusWriter.asWriter] at h ⊢
      rw [hf.1] at h
      rw [h.1, h.2, hf.2]
      exact ⟨rfl, rfl⟩

/-- The log of a recording writer driven directly by `calls`. -/
theorem recording_log (W : ResponseWriter σ) (calls : List WriterCall) (s : σ)
    (log : List Event) :
    (applyCalls (recording W) (s, log) calls).1.2 =
      log ++ eventsOf calls (applyCalls (recording W) (s, log) calls).2 := by
  induction calls generalizing s log with
  | nil => simp [applyCalls, eventsOf]
  | cons x t ih =>
    cases x with
    | WriteHeader c =>
      simp only [applyCalls, eventsOf]
      have := ih (W.WriteHeader s c) (log ++ [Event.WriteHeader c])
      simpa [recording] using this
    | Write b =>
      simp only [applyCalls, eventsOf]
      have := ih (W.Write s b).1 (log ++ [Event.Write b (W.Write s b).2.1 (W.Write s b).2.2])
      simpa [recording] using this

theorem writtenOf_append (l₁ l₂ : List Event) :
    writtenOf (l₁ ++ l₂) = writtenOf l₁ + writtenOf l₂ := by
  induction l₁ with
  | nil => simp [writtenOf]
  | cons e t ih => cases e <;> simp [writtenOf, ih, add_assoc]

/-- The written-lengths in the log of a recording writer are those its
`Write`s returned. -/
theorem recording_written (W : ResponseWriter σ) (calls : List WriterCall) (s : σ)
    (log : List Event) :
    writtenOf (applyCalls (recording W) (s, log) calls).1.2 =
      writtenOf log + ((applyCalls (recording W) (s, log) calls).2.map Prod.fst).sum := by
  induction calls generalizing s log with
  | nil => simp [applyCalls]
  | cons x t ih =>
    cases x with
    | WriteHeader c =>
      simp only [applyCalls]
      have := ih (W.WriteHeader s c) (log ++ [Event.WriteHeader c])
      simpa [recording, writtenOf_append, writtenOf] using this
    | Write b =>
      simp only [applyCalls, List.map_cons, List.sum_cons]
      have := ih (W.Write s b).1 (log ++ [Event.Write b (W.Write s b).2.1 (W.Write s b).2.2])
      simp only [recording, writtenOf_append, writtenOf] at this ⊢
      rw [this]
      ring

/-- A writer that never reports a negative written-length reports a
non-negative total. -/
theorem written_nonneg (W : ResponseWriter σ) (hW : ∀ s b, 0 ≤ (W.Write s b).2.1)
    (calls : List WriterCall) (s : σ) :
    0 ≤ ((applyCalls W s calls).2.map Prod.fst).sum := by
  induction calls generalizing s with
  | nil => simp [applyCalls]
  | cons x t ih =>
    cases x with
    | WriteHeader c => simpa [applyCalls] using ih _
    | Write b =>
      simp only [applyCalls, List.map_cons, List.sum_cons]
      exact add_nonneg (hW s b) (ih _)

/-- A path is a key of the map `skip` exactly when it is `/health` or `/status`. -/
theorem skip_lookup (path : String) :
    skip.lookup path = if path = "/health" ∨ path = "/status" then some 1 else none := by
  by_cases h1 : path = "/health"
  · simp [skip, h1]
  · by_cases h2 : path = "/status"
    · simp [skip, h2, List.lookup]
    · have h1' : (path == "/health") = false := by simpa using h1
      have h2' : (path == "/status") = false := by simpa using h2
      simp [skip, List.lookup, h1, h2, h1', h2']

end StatusWriterLemmas

/-! ## The status writer and the logger: claims -/

section LoggerClaims

variable {σ : Type}

/-- C6: on a fresh `statusWriter`, after any sequence of `WriteHeader` and
`Write` calls that ends in a `Write`, `Status()` is not zero, whatever the
embedded writer returned; and after a `Write` that no `WriteHeader` came
before, the first one in particular, `Status()` is 200. -/
theorem status_after_write (W : ResponseWriter σ) (resp : σ) (pre : List WriterCall)
    (bs : List Bytes) (b : Bytes) :
    (applyCalls (statusWriter.asWriter W) (statusWriter.fresh resp)
      (pre ++ [WriterCall.Write b])).1.Status ≠ 0 ∧
    (applyCalls (statusWriter.asWriter W) (statusWriter.fresh resp)
      [WriterCall.Write b]).1.Status = 200 ∧
    (applyCalls (statusWriter.asWriter W) (statusWriter.fresh resp)
      (bs.map WriterCall.Write ++ [WriterCall.Write b])).1.Status = 200 := by
  refine ⟨?_, ?_, ?_⟩
  · rw [applyCalls_append]
    simpa [applyCalls, statusWriter.asWriter, statusWriter.Status] using
      Write_status_ne_zero W _ b
  · exact status_after_writes W [] (statusWriter.fresh resp) b (Or.inl rfl)
  · exact status_after_writes W bs (statusWriter.fresh resp) b (Or.inl rfl)

/-- C7, as stated, fails: over a writer that reports 9223372036854775807
bytes written for every `Write`, so never a negative count, `length` is
9223372036854775807 after one `Write` and -2 after two: it has decreased and it
is not the sum 18446744073709551614 of the two reported written-lengths. -/
theorem length_wraps :
    (∀ s b, 0 ≤ ((reports 9223372036854775807).Write s b).2.1) ∧
    (applyCalls (statusWriter.asWriter (reports 9223372036854775807)) (statusWriter.fresh ())
      [WriterCall.Write [1]]).1.length = 9223372036854775807 ∧
    (applyCalls (statusWriter.asWriter (reports 9223372036854775807)) (statusWriter.fresh ())
      [WriterCall.Write [1], WriterCall.Write [2]]).1.length = -2 ∧
    ((applyCalls (reports 9223372036854775807) ()
      [WriterCall.Write [1], WriterCall.Write [2]]).2.map Prod.fst).sum =
        18446744073709551614 ∧
    ¬ (applyCalls (statusWriter.asWriter (reports 9223372036854775807)) (statusWriter.fresh ())
        [WriterCall.Write [1]]).1.length ≤
      (applyCalls (statusWriter.asWriter (reports 9223372036854775807)) (statusWriter.fresh ())
        [WriterCall.Write [1], WriterCall.Write [2]]).1.length := by
  refine ⟨fun _ _ => by simp [reports], ?_, ?_, ?_, ?_⟩ <;> decide

/-- C7, amended: on a fresh `statusWriter`, after any sequence of calls,
`length` is the sum of the written-lengths the embedded writer returned,
wrapped into the range of a 64-bit `int`; this holds for the results of the
same calls made directly on the embedded writer and for the written-lengths in
the log of an embedded recording writer. `WriteHeader` does not change
`length` and `Status` only reads. When the embedded writer never returns a
negative written-length and the sum it returns over a run stays below `2^63`,
`length` is the exact sum after every part of the run and never decreases. -/
theorem length_is_wrapped_sum (W : ResponseWriter σ) (resp : σ) (calls more : List WriterCall)
    (w : statusWriter σ) (code : Int) :
    (applyCalls (statusWriter.asWriter W) (statusWriter.fresh resp) calls).1.length =
      wrapInt (((applyCalls W resp calls).2.map Prod.fst).sum) ∧
    (applyCalls (statusWriter.asWriter (recording W)) (statusWriter.fresh (resp, []))
        calls).1.length =
      wrapInt (writtenOf
        (applyCalls (statusWriter.asWriter (recording W)) (statusWriter.fresh (resp, []))
          calls).1.ResponseWriter.2) ∧
    (statusWriter.WriteHeader W w code).length = w.length ∧
    ((∀ s b, 0 ≤ (W.Write s b).2.1) →
      ((applyCalls W resp (calls ++ more)).2.map Prod.fst).sum < 9223372036854775808 →
      (applyCalls (statusWriter.asWriter W) (statusWriter.fresh resp) calls).1.length =
        ((applyCalls W resp calls).2.map Prod.fst).sum ∧
      (applyCalls (statusWriter.asWriter W) (statusWriter.fresh resp) (calls ++ more)).1.length =
        ((applyCalls W resp (calls ++ more)).2.map Prod.fst).sum ∧
      (applyCalls (statusWriter.asWriter W) (statusWriter.fresh resp) calls).1.length ≤
        (applyCalls (statusWriter.asWriter W) (statusWriter.fresh resp)
          (calls ++ more)).1.length) := by
  have hfresh : ∀ {τ : Type} (V : ResponseWriter τ) (t : τ) (l : List WriterCall),
      (applyCalls (statusWriter.asWriter V) (statusWriter.fresh t) l).1.length =
        wrapInt (((applyCalls V t l).2.map Prod.fst).sum) := by
    intro τ V t l
    have h0 : wrapInt (statusWriter.fresh t).length = (statusWriter.fresh t).length := by
      show wrapInt 0 = 0
      decide
    rw [length_after_calls V l (statusWriter.fresh t) h0,
      (wrapper_forwards V l (statusWriter.fresh t)).2]
    simp [statusWriter.fresh]
  refine ⟨hfresh W resp calls, ?_, ?_, ?_⟩
  · rw [hfresh (recording W) (resp, []) calls,
      (wrapper_forwards (recording W) calls (statusWriter.fresh (resp, []))).1]
    have := recording_written W calls resp []
    simp only [statusWriter.fresh, writtenOf, zero_add] at this ⊢
    rw [this]
  · simp [statusWriter.WriteHeader]
  · intro hW hlt
    have h1 := written_nonneg W hW calls resp
    have h2 := written_nonneg W hW more (applyCalls W resp calls).1
    have h3 : ((applyCalls W resp (calls ++ more)).2.map Prod.fst).sum =
        ((applyCalls W resp calls).2.map Prod.fst).sum +
          ((applyCalls W (applyCalls W resp calls).1 more).2.map Prod.fst).sum := by
      rw [applyCalls_append]
      simp
    rw [hfresh W resp calls, hfresh W resp (calls ++ more),
      wrapInt_of_range _ h1 (by omega), wrapInt_of_range _ (by omega) hlt]
    exact ⟨rfl, rfl, by omega⟩

/-- C7, witness: on the writer that accepts everything, a write of three bytes
gives length 3, and after a `WriteHeader` and a write of two more bytes the
length is 5. -/
theorem length_is_wrapped_sum_witness :
    (∀ s b, 0 ≤ (discard.Write s b).2.1) ∧
    ((applyCalls discard () ([WriterCall.Write [1, 2, 3]] ++
      [WriterCall.WriteHeader 200, WriterCall.Write [4, 5]])).2.map Prod.fst).sum <
        9223372036854775808 ∧
    (applyCalls (statusWriter.asWriter discard) (statusWriter.fresh ())
      [WriterCall.Write [1, 2, 3]]).1.length = 3 ∧
    (applyCalls (statusWriter.asWriter discard) (statusWriter.fresh ())
      ([WriterCall.Write [1, 2, 3]] ++ [WriterCall.WriteHeader 200, WriterCall.Write [4, 5]])
      ).1.length = 5 ∧
    (applyCalls (statusWriter.asWriter discard) (statusWriter.fresh ())
      [WriterCall.Write [1, 2, 3]]).1.length ≤
    (applyCalls (statusWriter.asWriter discard) (statusWriter.fresh ())
      ([WriterCall.Write [1, 2, 3]] ++ [WriterCall.WriteHeader 200, WriterCall.Write [4, 5]])
      ).1.length :=
  ⟨fun _ b => Int.ofNat_nonneg b.length, by decide,
    ((length_is_wrapped_sum discard () [WriterCall.Write [1, 2, 3]]
      [WriterCall.WriteHeader 200, WriterCall.Write [4, 5]] (statusWriter.fresh ()) 0).2.2.2
      (fun _ b => Int.ofNat_nonneg b.length) (by decide)).1.trans (by decide),
    ((length_is_wrapped_sum discard () [WriterCall.Write [1, 2, 3]]
      [WriterCall.WriteHeader 200, WriterCall.Write [4, 5]] (statusWriter.fresh ()) 0).2.2.2
      (fun _ b => Int.ofNat_nonneg b.length) (by decide)).2.1.trans (by decide),
    ((length_is_wrapped_sum discard () [WriterCall.Write [1, 2, 3]]
      [WriterCall.WriteHeader 200, WriterCall.Write [4, 5]] (statusWriter.fresh ()) 0).2.2.2
      (fun _ b => Int.ofNat_nonneg b.length) (by decide)).2.2⟩

/-- C8: for every sequence of `WriteHeader` and `Write` calls on the wrapper,
the embedded writer ends in the state the same calls made directly would
leave it in, every wrapper `Write` returns what the embedded `Write`
returned, and the log of an embedded recording writer is exactly the
sequence of calls, in order, with those results. -/
theorem statusWriter_transparent (W : ResponseWriter σ) (resp : σ) (calls : List WriterCall) :
    (applyCalls (statusWriter.asWriter W) (statusWriter.fresh resp) calls).1.ResponseWriter =
      (applyCalls W resp calls).1 ∧
    (applyCalls (statusWriter.asWriter W) (statusWriter.fresh resp) calls).2 =
      (applyCalls W resp calls).2 ∧
    (applyCalls (statusWriter.asWriter (recording W)) (statusWriter.fresh (resp, []))
        calls).1.ResponseWriter.2 =
      eventsOf calls
        (applyCalls (statusWriter.asWriter (recording W)) (statusWriter.fresh (resp, []))
          calls).2 := by
  refine ⟨?_, ?_, ?_⟩
  · exact (wrapper_forwards W calls (statusWriter.fresh resp)).1
  · exact (wrapper_forwards W calls (statusWriter.fresh resp)).2
  · rw [(wrapper_forwards (recording W) calls (statusWriter.fresh (resp, []))).1,
      (wrapper_forwards (recording W) calls (statusWriter.fresh (resp, []))).2]
    simpa [statusWriter.fresh] using recording_log W calls resp []

/-- C9, as stated, fails: after `WriteHeader(200)` and then `WriteHeader(500)`
on a fresh `statusWriter`, `Status()` is 500, not the first code 200. -/
theorem status_is_not_first :
    (applyCalls (statusWriter.asWriter discard) (statusWriter.fresh ())
      [WriterCall.WriteHeader 200, WriterCall.WriteHeader 500]).1.Status = 500 ∧
    (applyCalls (statusWriter.asWriter discard) (statusWriter.fresh ())
      [WriterCall.WriteHeader 200, WriterCall.WriteHeader 500]).1.Status ≠ 200 := by
  decide

/-- C9, amended: after any calls, then `WriteHeader(code)`, then writes only,
`Status()` is `code`, the code of the last `WriteHeader`; except that it is
200 when `code` is 0 and a `Write` followed. -/
theorem status_is_last (W : ResponseWriter σ) (resp : σ) (pre : List WriterCall) (code : Int)
    (bs : List Bytes) :
    (applyCalls (statusWriter.asWriter W) (statusWriter.fresh resp)
      (pre ++ [WriterCall.WriteHeader code] ++ bs.map WriterCall.Write)).1.Status =
      (if code = 0 ∧ bs ≠ [] then 200 else code) := by
  have hsplit : pre ++ [WriterCall.WriteHeader code] ++ bs.map WriterCall.Write =
      pre ++ WriterCall.WriteHeader code :: bs.map WriterCall.Write := by simp
  rw [hsplit, applyCalls_append]
  simp only [applyCalls, statusWriter.Status]
  generalize (applyCalls (statusWriter.asWriter W) (statusWriter.fresh resp) pre).1 = w
  have hs : ((statusWriter.asWriter W).WriteHeader w code).status = code := by
    simp [statusWriter.asWriter, statusWriter.WriteHeader]
  by_cases hc : code = 0
  · cases bs with
    | nil => simp [applyCalls, hs]
    | cons b t =>
      simp only [List.map_cons, applyCalls]
      have h1 : ((statusWriter.asWriter W).Write
          ((statusWriter.asWriter W).WriteHeader w code) b).1.status = 200 :=
        Write_status_of_unset W _ b (Or.inl (hs.trans hc))
      rw [status_kept_by_writes W t _ (by rw [h1]; decide), h1]
      simp [hc]
  · rw [status_kept_by_writes W bs _ (by rw [hs]; exact hc), hs]
    simp [hc]

/-- C10: the handler of `RequestLogger` runs the rest of the chain on the
context whose writer is a fresh `statusWriter` around the original one; with
`path`, `method` and `status` the path, the method and `Status()` of the
wrapper after the chain returned, it prints nothing when `path` is `/health`
or `/status`, and otherwise exactly one line, which carries the rendered
method and the rendered status. -/
theorem RequestLogger_lines (render : Color → String → String) (startStamp elapsed : String)
    (next : Context (statusWriter σ) → Context (statusWriter σ)) (c : Context σ) :
    (RequestLogger render startStamp elapsed next c).1 =
      next (c.setResp (statusWriter.fresh c.Resp)) ∧
    (RequestLogger render startStamp elapsed next c).2 =
      (if (RequestLogger render startStamp elapsed next c).1.Path = "/health" ∨
          (RequestLogger render startStamp elapsed next c).1.Path = "/status" then []
       else
        [startStamp ++ " " ++ (RequestLogger render startStamp elapsed next c).1.ClientIP ++ " " ++
          render (colorForMethod (RequestLogger render startStamp elapsed next c).1.Method)
            (RequestLogger render startStamp elapsed next c).1.Method ++ " [" ++
          render (colorForStatus (RequestLogger render startStamp elapsed next c).1.Resp.Status)
            (toString (RequestLogger render startStamp elapsed next c).1.Resp.Status) ++ "] " ++
          (RequestLogger render startStamp elapsed next c).1.RequestURI ++ " " ++
          elapsed ++ "ms\n"]) ∧
    (RequestLogger render startStamp elapsed next c).2.length =
      (if (RequestLogger render startStamp elapsed next c).1.Path = "/health" ∨
          (RequestLogger render startStamp elapsed next c).1.Path = "/status" then 0 else 1) := by
  by_cases hp : (next (c.setResp (statusWriter.fresh c.Resp))).Path = "/health" ∨
    (next (c.setResp (statusWriter.fresh c.Resp))).Path = "/status"
  · simp [RequestLogger, skip_lookup, hp]
  · simp [RequestLogger, skip_lookup, hp]

end LoggerClaims

end Rux
